import Mathlib

-- Verification model of the museg Segment Timeline Model & Interaction Engine.
-- The definitions below are shallow embeddings of the Python sources:
--   src/src/core/label_manager.py  (LabelConfig, TrackLabels, LabelManager)
--   src/src/app.py                 (boundary-drag and whole-segment-move engine)
--   src/src/ui/label_bar.py        (whole-segment drag computation)
-- Time values (Python floats used as exact decimal times) are modelled as ℚ.
-- Persistence writes and change notifications are modelled as explicit state:
-- each `_save_labels` call pushes a snapshot and bumps a notification counter.

-- Core marks rational arithmetic `irreducible`; restore the default so that
-- concrete runs of the model evaluate with `decide`.
attribute [local semireducible] Rat.add Rat.sub Rat.mul Rat.ofScientific

namespace Museg

-- Data model (label_manager.py, `LabelDefinition` and `LabelSegment`).

structure LabelDefinition where
  id : String
  name : String
  color : String
  description : String
deriving DecidableEq, Repr

structure LabelSegment where
  label_id : String
  start_seconds : ℚ
  end_seconds : ℚ
deriving DecidableEq, Repr

-- `LabelSegment.duration` (label_manager.py line 28).
def LabelSegment.duration (s : LabelSegment) : ℚ := s.end_seconds - s.start_seconds

-- State of one `TrackLabels` store.  `segments` is the in-memory list
-- `self._segments`; `saved` records every persisted snapshot (most recent
-- first) and `notify_count` counts `labels_changed` emissions, so that
-- "no persistence write, no notification" is visible as state equality.
structure TrackState where
  segments : List LabelSegment
  saved : List (List LabelSegment)
  notify_count : Nat
deriving DecidableEq, Repr

-- `TrackLabels._save_labels`: full-file overwrite then signal emission.
def save_labels (st : TrackState) : TrackState :=
  { st with saved := st.segments :: st.saved, notify_count := st.notify_count + 1 }

-- Ordering key used by `self._segments.sort(key=lambda s: s.start_seconds)`.
def segLE (a b : LabelSegment) : Prop := a.start_seconds ≤ b.start_seconds

instance : DecidableRel segLE :=
  fun a b => inferInstanceAs (Decidable (a.start_seconds ≤ b.start_seconds))

instance : IsTotal LabelSegment segLE :=
  ⟨fun a b => le_total a.start_seconds b.start_seconds⟩

instance : IsTrans LabelSegment segLE :=
  ⟨fun _ _ _ h1 h2 => le_trans h1 h2⟩

-- Python `list.sort` is a stable sort by the key; a stable sort's output is
-- unique, so stable insertion sort models it exactly.
def sortSegments (l : List LabelSegment) : List LabelSegment :=
  List.insertionSort segLE l

-- The rejection test of `TrackLabels._add_segment_segmentation`: true overlap
-- that is not a pure boundary touch (label_manager.py lines 241-248).
def seg_overlap_test (start_seconds end_seconds : ℚ) (existing : LabelSegment) : Bool :=
  decide (start_seconds < existing.end_seconds) &&
    decide (end_seconds > existing.start_seconds) &&
    decide (start_seconds ≠ existing.end_seconds) &&
    decide (end_seconds ≠ existing.start_seconds)

-- `TrackLabels._add_segment_segmentation`.
def add_segment_segmentation (st : TrackState) (label_id : String)
    (start_seconds end_seconds : ℚ) : Bool × TrackState :=
  if st.segments.any (seg_overlap_test start_seconds end_seconds) then
    (false, st)
  else
    (true, save_labels { st with
      segments := sortSegments
        (st.segments ++ [LabelSegment.mk label_id start_seconds end_seconds]) })

-- `TrackLabels._add_segment_annotation` (free placement, no overlap check).
def add_segment_annot (st : TrackState) (label_id : String)
    (start_seconds end_seconds : ℚ) : Bool × TrackState :=
  (true, save_labels { st with
    segments := sortSegments
      (st.segments ++ [LabelSegment.mk label_id start_seconds end_seconds]) })

-- `TrackLabels.add_segment`: invalid range is rejected first; then dispatch on
-- the mode string — the code tests only "segmentation" and sends every other
-- string (its `else` branch) to the annotation path.
def add_segment (st : TrackState) (label_id : String)
    (start_seconds end_seconds : ℚ) (labeling_mode : String) : Bool × TrackState :=
  if start_seconds ≥ end_seconds then (false, st)
  else if labeling_mode = "segmentation" then
    add_segment_segmentation st label_id start_seconds end_seconds
  else
    add_segment_annot st label_id start_seconds end_seconds

-- `TrackLabels.update_segment_unchecked`: bounds check, range check, mutate,
-- re-sort, persist, notify.  No overlap validation.
def update_segment_unchecked (st : TrackState) (index : Nat)
    (start_seconds end_seconds : ℚ) : Bool × TrackState :=
  match st.segments[index]? with
  | none => (false, st)
  | some seg =>
    if start_seconds ≥ end_seconds then (false, st)
    else
      (true, save_labels { st with
        segments := sortSegments (st.segments.set index
          { seg with start_seconds := start_seconds, end_seconds := end_seconds }) })

-- The overlap re-validation of `TrackLabels.update_segment`: any segment at
-- another index whose range truly overlaps the candidate range.
def update_overlap_test (index : Nat) (start_seconds end_seconds : ℚ)
    (p : Nat × LabelSegment) : Bool :=
  decide (p.1 ≠ index) && decide (start_seconds < p.2.end_seconds) &&
    decide (end_seconds > p.2.start_seconds)

-- `TrackLabels.update_segment` (checked): additionally re-validates against
-- overlap with all segments at other indices before committing.
def update_segment (st : TrackState) (index : Nat)
    (start_seconds end_seconds : ℚ) : Bool × TrackState :=
  match st.segments[index]? with
  | none => (false, st)
  | some seg =>
    if start_seconds ≥ end_seconds then (false, st)
    else if st.segments.enum.any (update_overlap_test index start_seconds end_seconds) then
      (false, st)
    else
      (true, save_labels { st with
        segments := sortSegments (st.segments.set index
          { seg with start_seconds := start_seconds, end_seconds := end_seconds }) })

-- `TrackLabels.remove_segment`: bounds-checked deletion (no re-sort).
def remove_segment (st : TrackState) (index : Nat) : Bool × TrackState :=
  if index < st.segments.length then
    (true, save_labels { st with segments := st.segments.eraseIdx index })
  else (false, st)

-- `TrackLabels.get_segments` returns `self._segments.copy()`: at value level
-- the ordered sequence itself (the reference/aliasing structure of the copy is
-- modelled separately below for the defensive-copy claim).
def get_segments (st : TrackState) : List LabelSegment := st.segments

-- `TrackLabels.get_last_segment_end`: 0.0 when empty, else max of ends.
def get_last_segment_end (st : TrackState) : ℚ :=
  match st.segments.map LabelSegment.end_seconds with
  | [] => 0
  | x :: xs => xs.foldl max x

-- `TrackLabels.clear_all_segments`.
def clear_all_segments (st : TrackState) : TrackState :=
  save_labels { st with segments := [] }

-- Interaction engine (src/src/app.py).

-- `MusegApp._move_start_boundary` (app.py lines 496-541), including the
-- wrapper's bounds check from `_move_label_boundary` (line 478).  The
-- `segments` snapshot used for the neighbour values is the list as it was
-- before any update, exactly as in the code; each `update_segment_unchecked`
-- re-sorts and persists, and line 541 persists once more at the end.
def move_start_boundary (st : TrackState) (segment_index : Nat) (new_time : ℚ)
    (labeling_mode : String) : TrackState :=
  match st.segments[segment_index]? with
  | none => st
  | some segment =>
    if labeling_mode = "segmentation" then
      let min_time : ℚ :=
        if segment_index > 0 then
          ((st.segments[segment_index - 1]?).getD segment).start_seconds
        else 0
      let max_time : ℚ := segment.end_seconds - 1
      let t : ℚ := max min_time (min max_time new_time)
      let st1 := (update_segment_unchecked st segment_index t segment.end_seconds).2
      let st2 :=
        if segment_index > 0 then
          match st.segments[segment_index - 1]? with
          | some prev =>
            (update_segment_unchecked st1 (segment_index - 1) prev.start_seconds t).2
          | none => st1
        else st1
      save_labels st2
    else
      let max_time : ℚ := segment.end_seconds - 0.1
      let t : ℚ := max 0 (min max_time new_time)
      save_labels (update_segment_unchecked st segment_index t segment.end_seconds).2

-- Whole-segment drag position computation from `LabelBar.mouseMoveEvent`
-- (label_bar.py lines 292-306): keep the duration, slide both ends, clamp the
-- pair into `[0, duration_of_track]`.
def segment_drag_new_times (current_time offset : ℚ) (segment : LabelSegment)
    (track_duration : ℚ) : ℚ × ℚ :=
  let new_start_time := current_time - offset
  let segment_duration := segment.end_seconds - segment.start_seconds
  let new_end_time := new_start_time + segment_duration
  if new_start_time < 0 then (0, segment_duration)
  else if new_end_time > track_duration then
    (track_duration - segment_duration, track_duration)
  else (new_start_time, new_end_time)

-- `MusegApp._move_label_segment` (app.py lines 635-660): bounds check, then a
-- no-op unless the active mode is "annotation"; in annotation mode the
-- segment's fields are assigned directly (no re-sort) and the list persisted.
def move_label_segment (st : TrackState) (segment_index : Nat)
    (new_start_time new_end_time : ℚ) (labeling_mode : String) : TrackState :=
  match st.segments[segment_index]? with
  | none => st
  | some segment =>
    if labeling_mode ≠ "annotation" then st
    else
      save_labels { st with
        segments := st.segments.set segment_index
          { segment with
              start_seconds := new_start_time, end_seconds := new_end_time } }

-- Track identifier derivation (`TrackLabels.__init__`, label_manager.py lines
-- 136-145).  The input is the track's file name (the final path component).

-- Model of `pathlib.Path(...).stem` on a bare file name: drop the final
-- suffix, where a suffix starts at the last dot only if that dot is neither
-- the first character nor the last.
def pathStem (name : String) : String :=
  let cs := name.toList
  let dots := (List.range cs.length).filter (fun i => cs.getD i ' ' = '.')
  match dots.getLast? with
  | some i => if 0 < i ∧ i < cs.length - 1 then String.mk (cs.take i) else name
  | none => name

-- The ten single-character prefixes of the code's
-- `track_filename.startswith(("0", ..., "9"))` test.
def digit_chars : List Char := ['0', '1', '2', '3', '4', '5', '6', '7', '8', '9']

-- The code's derivation: if the file name starts with any ASCII digit, take
-- the first five characters (`track_filename[:5]`); otherwise the stem.
def trackIdOfFilename (name : String) : String :=
  if digit_chars.any (fun d => name.toList.headD ' ' = d) then
    String.mk (name.toList.take 5)
  else pathStem name

-- Shallow-copy aliasing model for `TrackLabels.get_segments` (label_manager.py
-- line 317, `self._segments.copy()`).  Python segments are mutable objects on
-- a heap; the store's list and the returned copy are distinct lists holding
-- the same object references.  `heap` is the object store, `store_refs` the
-- store's internal list of references.
structure SegHeapState where
  heap : List LabelSegment
  store_refs : List Nat
deriving DecidableEq, Repr

-- What the store observes: its references resolved through the heap.
def view_segments (ps : SegHeapState) : List LabelSegment :=
  ps.store_refs.map (fun r => (ps.heap[r]?).getD (LabelSegment.mk "" 0 0))

-- `get_segments` under the aliasing model: `.copy()` builds a fresh list
-- containing the same references.
def get_segments_refs (ps : SegHeapState) : List Nat := ps.store_refs

-- A caller mutating a field of a segment object it obtained from the copy
-- (e.g. `segment.start_seconds = new_start_time` in `_move_label_segment`,
-- app.py line 656): an in-place heap update through the shared reference.
def set_start_via_ref (ps : SegHeapState) (r : Nat) (v : ℚ) : SegHeapState :=
  match ps.heap[r]? with
  | none => ps
  | some seg => { ps with heap := ps.heap.set r { seg with start_seconds := v } }

-- Label configuration registry (`LabelConfig`, label_manager.py lines 33-121)
-- and `LabelManager.set_labels` (lines 414-430).

-- A raw JSON label entry: `label_data["id"|"name"|"color"]` raise KeyError
-- when absent, `label_data.get("description", "")` does not.
structure RawLabel where
  id? : Option String
  name? : Option String
  color? : Option String
  description? : Option String
deriving DecidableEq, Repr

-- A parsed JSON configuration document.  `labeling_mode?` models
-- `config_data.get("labeling_mode", "segmentation")`; a missing
-- "label_definitions" key defaults to the empty list via `.get(..., [])`.
structure RawConfig where
  labeling_mode? : Option String
  label_definitions : List RawLabel
deriving DecidableEq, Repr

-- Python dict with string keys: insertion preserving first-insertion order,
-- a repeated key overwrites in place.
abbrev LabelDict : Type := List (String × LabelDefinition)

def dictInsert (d : LabelDict) (k : String) (v : LabelDefinition) : LabelDict :=
  if d.any (fun p => p.1 = k) then
    d.map (fun p => if p.1 = k then (k, v) else p)
  else d ++ [(k, v)]

def dictGet (d : LabelDict) (k : String) : Option LabelDefinition :=
  (d.find? (fun p => p.1 = k)).map Prod.snd

-- In-memory state of `LabelConfig` after `_load_config`.
structure ConfigState where
  labeling_mode : String
  label_definitions : LabelDict
deriving DecidableEq

-- `LabelConfig._create_default_labels` (lines 66-82).
def default_labels : List LabelDefinition :=
  [LabelDefinition.mk "intro" "Intro" "#FF6B6B" "Track introduction",
   LabelDefinition.mk "main" "Main" "#4ECDC4" "Main section/theme",
   LabelDefinition.mk "buildup" "Buildup" "#45B7D1" "Energy building section",
   LabelDefinition.mk "mini_break" "Mini Break" "#96CEB4" "Breakdown/calm section",
   LabelDefinition.mk "drop" "Drop" "#459448" "Energy release/climax",
   LabelDefinition.mk "breakdown" "Breakdown" "#6867A0" "Breakdown/calm section",
   LabelDefinition.mk "outro" "Outro" "#DDA0DD" "Track ending"]

def default_label_dict : LabelDict :=
  default_labels.foldl (fun d l => dictInsert d l.id l) []

-- The loop of `_load_config` lines 52-59: build `LabelDefinition` objects from
-- the raw entries, inserting each into the definitions dict in order; a raw
-- entry missing "id", "name" or "color" raises KeyError (result `none`).
def parse_label_entries : List RawLabel → LabelDict → Option LabelDict
  | [], acc => some acc
  | e :: rest, acc =>
    match e.id?, e.name?, e.color? with
    | some i, some n, some c =>
      parse_label_entries rest
        (dictInsert acc i (LabelDefinition.mk i n c (e.description?.getD "")))
    | _, _, _ => none

-- `LabelConfig._load_config` (lines 42-64).  Input `none` models a read or
-- JSON-parse failure of the configuration resource (the `open`/`json.load`
-- calls raising before anything is assigned).  When the document parses, the
-- mode is assigned first (line 49); a KeyError raised afterwards while
-- building label definitions reaches the same `except` block, which installs
-- the default labels but does not touch the already-assigned mode.  The
-- `except Exception` handler means the function never raises to the caller:
-- the model is a total function.
def load_config (input : Option RawConfig) : ConfigState :=
  match input with
  | none => ConfigState.mk "segmentation" default_label_dict
  | some cfg =>
    let mode := cfg.labeling_mode?.getD "segmentation"
    match parse_label_entries cfg.label_definitions [] with
    | some d => ConfigState.mk mode d
    | none => ConfigState.mk mode default_label_dict

-- Decimal printing of a natural number, modelling Python's `str(i)` inside
-- the f-string `f"label_{i}"` of `LabelManager.set_labels`.
def decDigitChar (d : Nat) : Char := Char.ofNat (48 + d)

-- Base-10 digits, least significant first; the first argument is fuel
-- (structural recursion), sufficient whenever fuel ≥ n.
def decDigitsRevAux : Nat → Nat → List Nat
  | _, 0 => []
  | 0, _ + 1 => []
  | fuel + 1, n + 1 => (n + 1) % 10 :: decDigitsRevAux fuel ((n + 1) / 10)

def decDigitsRev (n : Nat) : List Nat := decDigitsRevAux n n

def natDecimal (n : Nat) : String :=
  if n = 0 then "0"
  else String.mk (((decDigitsRev n).map decDigitChar).reverse)

-- Value of a least-significant-first digit list, the inverse used to show
-- that decimal printing is injective.
def ofDigitsRev : List Nat → Nat
  | [] => 0
  | d :: ds => d + 10 * ofDigitsRev ds

-- Decimal parsing, the left inverse of `natDecimal`.
def decodeDecimal (s : String) : Nat :=
  ofDigitsRev ((s.data.map (fun c => c.toNat - 48)).reverse)

-- A label dictionary handed to `set_labels` by the label editor: "name" and
-- "color" are indexed directly (KeyError when absent, so modelled as
-- present), "description" via `.get(..., "")`.
structure EditorLabel where
  name : String
  color : String
  description? : Option String
deriving DecidableEq, Repr

-- The `definitions` list built by `LabelManager.set_labels` (lines 417-425):
-- fresh positional ids `f"label_{i}"` from `enumerate(labels)`.
def editor_definitions (labels : List EditorLabel) : List LabelDefinition :=
  labels.enum.map (fun p =>
    LabelDefinition.mk ("label_" ++ natDecimal p.1) p.2.name p.2.color
      (p.2.description?.getD ""))

-- `LabelManager.set_labels` (lines 414-430): the definitions list above, then
-- the dict comprehension `{ld.id: ld for ld in definitions}`.
def set_labels (labels : List EditorLabel) : LabelDict :=
  (editor_definitions labels).foldl (fun d ld => dictInsert d ld.id ld) []

-- Predicates and operation sequences used by the invariant claims.

-- A true overlap between two time ranges (symmetric).
def TrueOverlap (a b : LabelSegment) : Prop :=
  a.start_seconds < b.end_seconds ∧ b.start_seconds < a.end_seconds

instance : DecidableRel TrueOverlap :=
  fun a b => inferInstanceAs (Decidable (a.start_seconds < b.end_seconds ∧ b.start_seconds < a.end_seconds))

def NoTrueOverlap (l : List LabelSegment) : Prop :=
  l.Pairwise (fun a b => ¬ TrueOverlap a b)

def SortedByStart (l : List LabelSegment) : Prop := List.Sorted segLE l

-- An arbitrary sequence of segmentation-mode adds.
def run_seg_adds (st : TrackState) (ops : List (String × ℚ × ℚ)) : TrackState :=
  ops.foldl (fun s op => (add_segment s op.1 op.2.1 op.2.2 "segmentation").2) st

-- The store's mutating operations, for quantifying over op sequences.
inductive StoreOp where
  | add (label_id : String) (start_seconds end_seconds : ℚ) (labeling_mode : String)
  | updateChecked (index : Nat) (start_seconds end_seconds : ℚ)
  | updateUnchecked (index : Nat) (start_seconds end_seconds : ℚ)
  | remove (index : Nat)
  | clear
deriving DecidableEq, Repr

def apply_op (st : TrackState) : StoreOp → TrackState
  | StoreOp.add lid s e m => (add_segment st lid s e m).2
  | StoreOp.updateChecked i s e => (update_segment st i s e).2
  | StoreOp.updateUnchecked i s e => (update_segment_unchecked st i s e).2
  | StoreOp.remove i => (remove_segment st i).2
  | StoreOp.clear => clear_all_segments st

def run_ops (st : TrackState) (ops : List StoreOp) : TrackState :=
  ops.foldl apply_op st

-- Specification-side definitions, written from the (amended) spec wording,
-- to be compared with the code-side definitions above.

-- Amended start-boundary drag (segmentation): clamp the target time to the
-- closed interval from the previous segment's start (0 when there is no
-- previous segment) to the dragged segment's end minus 1.0; one unchecked
-- update on segment `i` with the clamped start, and — iff a previous segment
-- exists — a second unchecked update setting the previous segment's end to
-- the same clamped time.
def move_start_boundary_amended (st : TrackState) (i : Nat) (target : ℚ) : TrackState :=
  match st.segments[i]? with
  | none => st
  | some seg =>
    let lower : ℚ :=
      match i, st.segments[i - 1]? with
      | Nat.succ _, some prev => prev.start_seconds
      | _, _ => 0
    let clamped : ℚ := max lower (min (seg.end_seconds - 1) target)
    let st1 := (update_segment_unchecked st i clamped seg.end_seconds).2
    match i, st.segments[i - 1]? with
    | Nat.succ j, some prev =>
      (update_segment_unchecked st1 j prev.start_seconds clamped).2
    | _, _ => st1

-- The original claim's identifier derivation: the leading run of five ASCII
-- digits when the filename has one, otherwise the filename without extension.
def claimTrackId (name : String) : String :=
  if 5 ≤ name.toList.length ∧ (name.toList.take 5).all Char.isDigit then
    String.mk (name.toList.take 5)
  else pathStem name

-- The amended identifier derivation: whenever the first character of the
-- filename is an ASCII digit, the first five characters (the whole filename
-- when shorter); otherwise the filename without extension.
def amendedTrackId (name : String) : String :=
  match name.toList with
  | [] => pathStem name
  | c :: _ => if c.isDigit then String.mk (name.toList.take 5) else pathStem name

-- Helper lemmas.

theorem sortSegments_sorted (l : List LabelSegment) : SortedByStart (sortSegments l) :=
  List.sorted_insertionSort segLE l

theorem sortSegments_perm (l : List LabelSegment) : (sortSegments l).Perm l :=
  List.perm_insertionSort segLE l

theorem trueOverlap_symm {a b : LabelSegment} (h : TrueOverlap a b) : TrueOverlap b a :=
  ⟨h.2, h.1⟩

theorem noTrueOverlap_perm {l1 l2 : List LabelSegment} (hp : l1.Perm l2) :
    NoTrueOverlap l1 ↔ NoTrueOverlap l2 :=
  hp.pairwise_iff (fun h hT => h (trueOverlap_symm hT))

-- Claim theorems.

/-- C8: for every label id, mode and pair of times with start ≥ end,
`add_segment` returns false and leaves the store completely unchanged (same
segment list, no persistence write, no notification). -/
theorem add_segment_invalid_range (st : TrackState) (label_id labeling_mode : String)
    (start_seconds end_seconds : ℚ) (h : start_seconds ≥ end_seconds) :
    add_segment st label_id start_seconds end_seconds labeling_mode = (false, st) := by
  simp [add_segment, h]

/-- C8 witness: `addSegment("intro", 10.0, 10.0, "segmentation")` returns false
with the store unchanged. -/
theorem add_segment_invalid_range_witness :
    (10 : ℚ) ≥ 10 ∧
      add_segment (TrackState.mk [] [] 0) "intro" 10 10 "segmentation"
        = (false, TrackState.mk [] [] 0) :=
  ⟨le_refl 10,
    add_segment_invalid_range (TrackState.mk [] [] 0) "intro" "segmentation" 10 10 (le_refl 10)⟩

/-- C3 counterexample: `add_segment` with the unknown mode "bogus" and a valid
time range returns true and mutates the store, so an unknown mode is not a
validation failure as claimed. -/
theorem add_segment_unknown_mode_counterexample :
    "bogus" ≠ "segmentation" ∧ "bogus" ≠ "annotation" ∧ (0 : ℚ) < 1 ∧
      (add_segment (TrackState.mk [] [] 0) "intro" 0 1 "bogus").1 = true ∧
      (add_segment (TrackState.mk [] [] 0) "intro" 0 1 "bogus").2
        ≠ TrackState.mk [] [] 0 := by decide

/-- C3 amended: a mode argument other than "segmentation" (including any
unknown mode) is treated as annotation mode: with a valid range the segment is
appended without any overlap check, the list re-sorted, persisted and
notified, and the call returns true. -/
theorem add_segment_unknown_mode_annot (st : TrackState)
    (label_id labeling_mode : String) (start_seconds end_seconds : ℚ)
    (hrange : start_seconds < end_seconds) (hmode : labeling_mode ≠ "segmentation") :
    add_segment st label_id start_seconds end_seconds labeling_mode =
      (true, save_labels (TrackState.mk
        (sortSegments (st.segments ++ [LabelSegment.mk label_id start_seconds end_seconds]))
        st.saved st.notify_count)) := by
  have h1 : ¬ start_seconds ≥ end_seconds := not_le.mpr hrange
  simp [add_segment, h1, hmode, add_segment_annot]

/-- C3 amended witness: the unknown mode "bogus" appends like annotation mode. -/
theorem add_segment_unknown_mode_annot_witness :
    add_segment (TrackState.mk [] [] 0) "intro" 0 1 "bogus" =
      (true, save_labels (TrackState.mk
        (sortSegments ([] ++ [LabelSegment.mk "intro" 0 1])) [] 0)) :=
  add_segment_unknown_mode_annot (TrackState.mk [] [] 0) "intro" "bogus" 0 1
    (by decide) (by decide)

/-- C1 counterexample: dragging the start of segment [10,20] in segmentation
mode with previous segment [0,5] (ending at 5) and target time 2 yields new
start 2 and previous end 2 — the code clamps against the previous segment's
start (0), not its end (5), so the claimed result (start 5, previous end 5)
is not what the engine produces. -/
theorem move_start_boundary_counterexample :
    (move_start_boundary
        (TrackState.mk [LabelSegment.mk "prev" 0 5, LabelSegment.mk "cur" 10 20] [] 0)
        1 2 "segmentation").segments
      = [LabelSegment.mk "prev" 0 2, LabelSegment.mk "cur" 2 20] ∧
    (move_start_boundary
        (TrackState.mk [LabelSegment.mk "prev" 0 5, LabelSegment.mk "cur" 10 20] [] 0)
        1 2 "segmentation").segments
      ≠ [LabelSegment.mk "prev" 0 5, LabelSegment.mk "cur" 5 20] := by decide

/-- C1 amended: for a start-boundary drag in segmentation mode the engine
clamps the target time to the closed interval from the previous segment's
start if one exists (else 0) to the dragged segment's end minus 1.0, calls the
unchecked update on segment i with the clamped start, and iff a previous
segment exists a second unchecked update setting the previous segment's end
to the same clamped time; in particular dragging [10,20]'s start with
previous segment [0,5] and target time 2 yields new start 2 and previous end
2. -/
theorem move_start_boundary_amended_correct :
    (∀ (st : TrackState) (i : Nat) (t : ℚ),
      (move_start_boundary st i t "segmentation").segments
        = (move_start_boundary_amended st i t).segments) ∧
    (move_start_boundary
        (TrackState.mk [LabelSegment.mk "prev" 0 5, LabelSegment.mk "cur" 10 20] [] 0)
        1 2 "segmentation").segments
      = [LabelSegment.mk "prev" 0 2, LabelSegment.mk "cur" 2 20] := by
  refine ⟨?_, by decide⟩
  intro st i t
  unfold move_start_boundary move_start_boundary_amended
  cases hseg : st.segments[i]? with
  | none => rfl
  | some seg =>
    cases i with
    | zero => simp [save_labels]
    | succ j =>
      cases hprev : st.segments[j]? with
      | none =>
        exfalso
        obtain ⟨hlt, -⟩ := List.getElem?_eq_some.mp hseg
        have hge := List.getElem?_eq_none_iff.mp hprev
        omega
      | some prev => simp [hprev, save_labels]

-- Character facts used for the identifier derivation claim.

theorem isDigit_enum (c : Char) (h : c.isDigit = true) :
    c = '0' ∨ c = '1' ∨ c = '2' ∨ c = '3' ∨ c = '4' ∨
    c = '5' ∨ c = '6' ∨ c = '7' ∨ c = '8' ∨ c = '9' := by
  simp only [Char.isDigit, Bool.and_eq_true, decide_eq_true_eq] at h
  have h1 : 48 ≤ c.toNat := h.1
  have h2 : c.toNat ≤ 57 := h.2
  have hc : Char.ofNat c.toNat = c := Char.ofNat_toNat c
  have hcase : c.toNat = 48 ∨ c.toNat = 49 ∨ c.toNat = 50 ∨ c.toNat = 51 ∨
      c.toNat = 52 ∨ c.toNat = 53 ∨ c.toNat = 54 ∨ c.toNat = 55 ∨
      c.toNat = 56 ∨ c.toNat = 57 := by omega
  rcases hcase with h | h | h | h | h | h | h | h | h | h <;>
    rw [← hc, h] <;> simp

theorem digit_chars_any_eq_isDigit (c : Char) :
    digit_chars.any (fun d => c = d) = c.isDigit := by
  cases hd : c.isDigit with
  | true =>
    rcases isDigit_enum c hd with h | h | h | h | h | h | h | h | h | h <;>
      subst h <;> decide
  | false =>
    cases ha : digit_chars.any (fun d => c = d) with
    | false => rfl
    | true =>
      exfalso
      have := List.any_eq_true.mp ha
      obtain ⟨d, hdmem, hcd⟩ := this
      have hcd' : c = d := of_decide_eq_true hcd
      subst hcd'
      fin_cases hdmem <;> simp_all

/-- C2 counterexample: for the filename "1a.mp3" the leading ASCII-digit run
has length 1, so the claimed rule yields the stem "1a"; the code instead takes
the first five characters "1a.mp" because the first character is a digit, so
the claim does not hold for every filename. -/
theorem track_id_counterexample :
    trackIdOfFilename "1a.mp3" = "1a.mp" ∧ claimTrackId "1a.mp3" = "1a" ∧
      trackIdOfFilename "1a.mp3" ≠ claimTrackId "1a.mp3" := by decide

/-- C2 amended: for every filename, the derived identifier is the first five
characters of the filename whenever its first character is an ASCII digit
(the whole filename when it is shorter than five characters), and otherwise
the filename without its extension; the spec's two examples
"00042_song.mp3" ↦ "00042" and "intro_theme.wav" ↦ "intro_theme" hold. -/
theorem track_id_amended_correct :
    (∀ name : String, trackIdOfFilename name = amendedTrackId name) ∧
      trackIdOfFilename "00042_song.mp3" = "00042" ∧
      trackIdOfFilename "intro_theme.wav" = "intro_theme" := by
  refine ⟨?_, by decide, by decide⟩
  intro name
  unfold trackIdOfFilename amendedTrackId
  cases h : name.toList with
  | nil => simp [h, digit_chars]
  | cons c rest =>
    simp only [h, List.headD_cons]
    simp only [digit_chars_any_eq_isDigit c]

/-- C4 counterexample: `get_segments` returns a shallow copy — the returned
list for the store below holds the same segment object (reference 0), and
assigning to that object's `start_seconds` through the copy changes the
store's observed segment list, so caller mutation of a returned element does
not leave the store unchanged. -/
theorem get_segments_shallow_counterexample :
    get_segments_refs (SegHeapState.mk [LabelSegment.mk "intro" 0 5] [0]) = [0] ∧
    view_segments
        (set_start_via_ref (SegHeapState.mk [LabelSegment.mk "intro" 0 5] [0]) 0 3)
      ≠ view_segments (SegHeapState.mk [LabelSegment.mk "intro" 0 5] [0]) := by decide

/-- C4 amended: `get_segments` returns a shallow copy: the returned list is a
fresh list holding the store's segment references, and a field mutation
through a shared reference never touches the store's reference list itself,
but it is visible at every position of the store's observed segment sequence
that holds the mutated reference (the whole-segment move in the app relies on
exactly this aliasing). -/
theorem get_segments_shallow_copy (ps : SegHeapState) (r : Nat) (v : ℚ)
    (h : r < ps.heap.length) :
    get_segments_refs ps = ps.store_refs ∧
    (set_start_via_ref ps r v).store_refs = ps.store_refs ∧
    view_segments (set_start_via_ref ps r v) = ps.store_refs.map (fun x =>
      if x = r then
        { (ps.heap[x]?).getD (LabelSegment.mk "" 0 0) with start_seconds := v }
      else (ps.heap[x]?).getD (LabelSegment.mk "" 0 0)) := by
  obtain ⟨hlt, hval⟩ : ∃ hh : r < ps.heap.length, ps.heap[r] = ps.heap[r] := ⟨h, rfl⟩
  have hsome : ps.heap[r]? = some (ps.heap.get ⟨r, h⟩) := by
    simp [List.getElem?_eq_getElem h]
  refine ⟨rfl, ?_, ?_⟩
  · simp [set_start_via_ref, hsome]
  · simp only [set_start_via_ref, hsome, view_segments]
    apply List.map_congr_left
    intro x hx
    by_cases hxr : x = r
    · subst hxr
      simp [List.getElem?_set, h, hsome]
    · simp [List.getElem?_set, hxr, Ne.symm hxr]

/-- C4 witness: concrete instance of the shallow-copy characterisation. -/
theorem get_segments_shallow_copy_witness :
    view_segments
        (set_start_via_ref (SegHeapState.mk [LabelSegment.mk "intro" 0 5] [0]) 0 3)
      = [LabelSegment.mk "intro" 3 5] := by
  have h := (get_segments_shallow_copy
    (SegHeapState.mk [LabelSegment.mk "intro" 0 5] [0]) 0 3 (by decide)).2.2
  rw [h]
  decide

/-- C7 counterexample: a configuration document that parses as JSON with
labeling mode "annotation" but a malformed label entry (missing "id") makes
the loader fall back to the default labels while keeping mode "annotation" —
not mode "segmentation" as the claim states for every parse failure. -/
theorem load_config_counterexample :
    parse_label_entries [RawLabel.mk none none none none] [] = none ∧
    (load_config (some (RawConfig.mk (some "annotation")
        [RawLabel.mk none none none none]))).label_definitions = default_label_dict ∧
    (load_config (some (RawConfig.mk (some "annotation")
        [RawLabel.mk none none none none]))).labeling_mode = "annotation" ∧
    ("annotation" : String) ≠ "segmentation" := by decide

/-- C7 amended: the loader never raises (it is a total function); when the
configuration resource cannot be read or parsed as a document at all the
state falls back to the built-in 7 default labels (ids intro, main, buildup,
mini_break, drop, breakdown, outro) and mode "segmentation"; when the
document parses but a label entry is malformed, the labels fall back to the
same 7 defaults while the mode keeps the value already read from the document
("segmentation" only when the document had no mode key). -/
theorem load_config_fallback :
    (load_config none = ConfigState.mk "segmentation" default_label_dict) ∧
    (∀ cfg : RawConfig, parse_label_entries cfg.label_definitions [] = none →
      load_config (some cfg)
        = ConfigState.mk (cfg.labeling_mode?.getD "segmentation") default_label_dict) ∧
    default_label_dict.map Prod.fst
      = ["intro", "main", "buildup", "mini_break", "drop", "breakdown", "outro"] := by
  refine ⟨rfl, ?_, by decide⟩
  intro cfg hfail
  simp [load_config, hfail]

/-- C7 witness: a document whose only label entry lacks "id" and that has no
mode key loads as the default labels with mode "segmentation". -/
theorem load_config_fallback_witness :
    load_config (some (RawConfig.mk none [RawLabel.mk none (some "X") (some "#FFF") none]))
      = ConfigState.mk "segmentation" default_label_dict := by
  have h := load_config_fallback.2.1
    (RawConfig.mk none [RawLabel.mk none (some "X") (some "#FFF") none]) (by decide)
  simpa using h

/-- C9: whole-segment move is permitted only in annotation mode: in
segmentation mode `_move_label_segment` is a no-op that does not mutate any
state; the drag computation keeps the segment's original duration
(newEnd = newStart + originalDuration) in every branch; when the segment is
valid (non-negative duration) and fits the track (duration ≤ trackDuration),
the clamping slides both ends together so the result stays within
[0, trackDuration]; and in annotation mode the store's segment i is assigned
exactly the computed pair. -/
theorem move_label_segment_spec :
    (∀ (st : TrackState) (i : Nat) (ns ne : ℚ),
      move_label_segment st i ns ne "segmentation" = st) ∧
    (∀ (current_time offset track_duration : ℚ) (segment : LabelSegment),
      (segment_drag_new_times current_time offset segment track_duration).2
        - (segment_drag_new_times current_time offset segment track_duration).1
        = segment.end_seconds - segment.start_seconds) ∧
    (∀ (current_time offset track_duration : ℚ) (segment : LabelSegment),
      0 ≤ segment.end_seconds - segment.start_seconds →
      segment.end_seconds - segment.start_seconds ≤ track_duration →
      0 ≤ (segment_drag_new_times current_time offset segment track_duration).1 ∧
        (segment_drag_new_times current_time offset segment track_duration).2
          ≤ track_duration) ∧
    (∀ (st : TrackState) (i : Nat) (seg : LabelSegment), st.segments[i]? = some seg →
      ∀ ns ne : ℚ, move_label_segment st i ns ne "annotation"
        = save_labels (TrackState.mk
            (st.segments.set i (LabelSegment.mk seg.label_id ns ne))
            st.saved st.notify_count)) := by
  refine ⟨?_, ?_, ?_, ?_⟩
  · intro st i ns ne
    unfold move_label_segment
    cases hseg : st.segments[i]? with
    | none => rfl
    | some seg => simp
  · intro ct off td segment
    unfold segment_drag_new_times
    dsimp only
    split_ifs <;> dsimp only <;> ring
  · intro ct off td segment h0 hfit
    unfold segment_drag_new_times
    dsimp only
    split_ifs with h1 h2
    · exact ⟨le_refl 0, hfit⟩
    · refine ⟨?_, le_refl td⟩
      show 0 ≤ td - (segment.end_seconds - segment.start_seconds)
      linarith
    · refine ⟨?_, ?_⟩
      · show 0 ≤ ct - off
        linarith
      · show ct - off + (segment.end_seconds - segment.start_seconds) ≤ td
        linarith
  · intro st i seg hseg ns ne
    simp [move_label_segment, hseg]

/-- C9 witness: a concrete drag computation stays in range and a concrete
annotation-mode move assigns the given pair. -/
theorem move_label_segment_spec_witness :
    (0 ≤ (segment_drag_new_times 7 1 (LabelSegment.mk "a" 2 4) 100).1 ∧
      (segment_drag_new_times 7 1 (LabelSegment.mk "a" 2 4) 100).2 ≤ 100) ∧
    move_label_segment (TrackState.mk [LabelSegment.mk "a" 0 5] [] 0) 0 1 6 "annotation"
      = save_labels (TrackState.mk ([LabelSegment.mk "a" 0 5].set 0 (LabelSegment.mk "a" 1 6)) [] 0) :=
  ⟨move_label_segment_spec.2.2.1 7 1 100 (LabelSegment.mk "a" 2 4) (by decide) (by decide),
   move_label_segment_spec.2.2.2 (TrackState.mk [LabelSegment.mk "a" 0 5] [] 0) 0
     (LabelSegment.mk "a" 0 5) (by decide) 1 6⟩

-- The segmentation-mode rejection test, as a proposition.

theorem seg_overlap_test_eq_true_iff (s e : ℚ) (ex : LabelSegment) :
    seg_overlap_test s e ex = true ↔
      (s < ex.end_seconds ∧ e > ex.start_seconds) ∧
        ¬(s = ex.end_seconds ∨ e = ex.start_seconds) := by
  simp only [seg_overlap_test, Bool.and_eq_true, decide_eq_true_eq]
  tauto

theorem add_segmentation_preserves_noTrueOverlap (st : TrackState) (lid : String)
    (s e : ℚ) (h : NoTrueOverlap st.segments) :
    NoTrueOverlap ((add_segment st lid s e "segmentation").2).segments := by
  unfold add_segment
  by_cases hr : s ≥ e
  · simpa [hr] using h
  · simp only [hr, if_false, if_true, if_pos rfl]
    unfold add_segment_segmentation
    cases hany : st.segments.any (seg_overlap_test s e) with
    | true => simpa [hany] using h
    | false =>
      simp only [hany, Bool.false_eq_true, if_false, save_labels]
      rw [NoTrueOverlap] at h ⊢
      rw [(sortSegments_perm _).pairwise_iff (fun hx hT => hx (trueOverlap_symm hT))]
      rw [List.pairwise_append]
      refine ⟨h, List.pairwise_singleton _ _, ?_⟩
      intro a ha b hb
      simp only [List.mem_singleton] at hb
      subst hb
      intro hT
      have htest : seg_overlap_test s e a = true := by
        rw [seg_overlap_test_eq_true_iff]
        refine ⟨⟨hT.2, hT.1⟩, ?_⟩
        rintro (heq | heq)
        · exact absurd hT.2 (by rw [heq]; exact lt_irrefl _)
        · exact absurd hT.1 (by rw [heq]; exact lt_irrefl _)
      have hfalse : seg_overlap_test s e a = false := by
        have := List.any_eq_false.mp hany
        have hcontra := this a ha
        simpa using hcontra
      rw [htest] at hfalse
      cases hfalse

theorem run_seg_adds_noTrueOverlap (st : TrackState) (ops : List (String × ℚ × ℚ))
    (h : NoTrueOverlap st.segments) : NoTrueOverlap (run_seg_adds st ops).segments := by
  induction ops generalizing st with
  | nil => exact h
  | cons op rest ih =>
    exact ih _ (add_segmentation_preserves_noTrueOverlap st op.1 op.2.1 op.2.2 h)

/-- C5: with a valid range, a segmentation-mode add is rejected (returns
false, no mutation) iff the candidate truly overlaps some existing segment
and the overlap is not a pure boundary touch; on success it appends the
segment, re-sorts by start, persists and notifies; consequently after any
sequence of segmentation-mode adds no two segments truly overlap. -/
theorem segmentation_add_no_overlap :
    (∀ (st : TrackState) (label_id : String) (s e : ℚ), s < e →
      ((((add_segment st label_id s e "segmentation").1 = false) ↔
        ∃ ex ∈ st.segments, (s < ex.end_seconds ∧ e > ex.start_seconds) ∧
          ¬(s = ex.end_seconds ∨ e = ex.start_seconds)) ∧
      (((add_segment st label_id s e "segmentation").1 = false) →
        (add_segment st label_id s e "segmentation").2 = st) ∧
      (((add_segment st label_id s e "segmentation").1 = true) →
        (add_segment st label_id s e "segmentation").2
          = save_labels (TrackState.mk
              (sortSegments (st.segments ++ [LabelSegment.mk label_id s e]))
              st.saved st.notify_count)))) ∧
    (∀ (st : TrackState) (ops : List (String × ℚ × ℚ)),
      NoTrueOverlap st.segments → NoTrueOverlap (run_seg_adds st ops).segments) := by
  constructor
  · intro st lid s e hrange
    have hr : ¬ s ≥ e := not_le.mpr hrange
    have hstep : add_segment st lid s e "segmentation"
        = add_segment_segmentation st lid s e := by
      simp [add_segment, hr]
    rw [hstep]
    cases hany : st.segments.any (seg_overlap_test s e) with
    | true =>
      have hres : add_segment_segmentation st lid s e = (false, st) := by
        unfold add_segment_segmentation
        simp [hany]
      rw [hres]
      obtain ⟨ex, hmem, htest⟩ := List.any_eq_true.mp hany
      refine ⟨?_, fun _ => rfl, fun habs => by simp at habs⟩
      exact ⟨fun _ => ⟨ex, hmem, (seg_overlap_test_eq_true_iff s e ex).mp htest⟩,
        fun _ => rfl⟩
    | false =>
      have hres : add_segment_segmentation st lid s e
          = (true, save_labels (TrackState.mk
              (sortSegments (st.segments ++ [LabelSegment.mk lid s e]))
              st.saved st.notify_count)) := by
        unfold add_segment_segmentation
        simp [hany]
      rw [hres]
      refine ⟨?_, fun habs => by simp at habs, fun _ => rfl⟩
      constructor
      · intro habs
        simp at habs
      · rintro ⟨ex, hmem, hprop⟩
        have ht : seg_overlap_test s e ex = true :=
          (seg_overlap_test_eq_true_iff s e ex).mpr hprop
        have hc : st.segments.any (seg_overlap_test s e) = true :=
          List.any_eq_true.mpr ⟨ex, hmem, ht⟩
        rw [hany] at hc
        cases hc
  · exact fun st ops h => run_seg_adds_noTrueOverlap st ops h

/-- C5 witness: the rejection characterisation at a concrete overlapping add,
and the no-true-overlap invariant after a concrete sequence of
segmentation-mode adds (including one rejected overlapping attempt). -/
theorem segmentation_add_no_overlap_witness :
    (((add_segment (TrackState.mk [LabelSegment.mk "intro" 0 5] [] 0)
          "main" 3 7 "segmentation").1 = false) ↔
      ∃ ex ∈ [LabelSegment.mk "intro" 0 5],
        ((3 : ℚ) < ex.end_seconds ∧ (7 : ℚ) > ex.start_seconds) ∧
          ¬((3 : ℚ) = ex.end_seconds ∨ (7 : ℚ) = ex.start_seconds)) ∧
    NoTrueOverlap (run_seg_adds (TrackState.mk [] [] 0)
      [("intro", 0, 5), ("main", 5, 9), ("drop", 3, 6)]).segments :=
  ⟨(segmentation_add_no_overlap.1 (TrackState.mk [LabelSegment.mk "intro" 0 5] [] 0)
      "main" 3 7 (by decide)).1,
   segmentation_add_no_overlap.2 (TrackState.mk [] [] 0) _ (by simp [NoTrueOverlap])⟩

theorem apply_op_preserves_sorted (st : TrackState) (op : StoreOp)
    (h : SortedByStart st.segments) : SortedByStart (apply_op st op).segments := by
  cases op with
  | add lid s e m =>
    by_cases hr : s ≥ e
    · simpa [apply_op, add_segment, hr] using h
    · by_cases hm : m = "segmentation"
      · cases hany : st.segments.any (seg_overlap_test s e) with
        | true =>
          simpa [apply_op, add_segment, hr, hm, add_segment_segmentation, hany] using h
        | false =>
          simpa [apply_op, add_segment, hr, hm, add_segment_segmentation, hany,
            save_labels] using sortSegments_sorted _
      · simpa [apply_op, add_segment, hr, hm, add_segment_annot, save_labels] using
          sortSegments_sorted _
  | updateChecked i s e =>
    cases hseg : st.segments[i]? with
    | none => simpa [apply_op, update_segment, hseg] using h
    | some seg =>
      by_cases hr : s ≥ e
      · simpa [apply_op, update_segment, hseg, hr] using h
      · cases hany : st.segments.enum.any (update_overlap_test i s e) with
        | true => simpa [apply_op, update_segment, hseg, hr, hany] using h
        | false =>
          simpa [apply_op, update_segment, hseg, hr, hany, save_labels] using
            sortSegments_sorted _
  | updateUnchecked i s e =>
    cases hseg : st.segments[i]? with
    | none => simpa [apply_op, update_segment_unchecked, hseg] using h
    | some seg =>
      by_cases hr : s ≥ e
      · simpa [apply_op, update_segment_unchecked, hseg, hr] using h
      · simpa [apply_op, update_segment_unchecked, hseg, hr, save_labels] using
          sortSegments_sorted _
  | remove i =>
    by_cases hb : i < st.segments.length
    · have hres : (apply_op st (StoreOp.remove i)).segments
          = st.segments.eraseIdx i := by
        simp [apply_op, remove_segment, hb, save_labels]
      rw [hres]
      exact List.Pairwise.sublist (List.eraseIdx_sublist _ _) h
    · simpa [apply_op, remove_segment, hb] using h
  | clear =>
    simp [apply_op, clear_all_segments, save_labels, SortedByStart]

/-- C6: after every sequence of store mutations (adds in either mode, checked
updates, unchecked updates, removals, clear — successful or rejected), the
sequence returned by `get_segments` is non-decreasing in `start_seconds`. -/
theorem store_ops_sorted (st : TrackState) (ops : List StoreOp)
    (h : SortedByStart (get_segments st)) :
    SortedByStart (get_segments (run_ops st ops)) := by
  induction ops generalizing st with
  | nil => exact h
  | cons op rest ih => exact ih _ (apply_op_preserves_sorted st op h)

/-- C6 witness: the sort invariant after a concrete mixed op sequence. -/
theorem store_ops_sorted_witness :
    SortedByStart (get_segments (run_ops (TrackState.mk [] [] 0)
      [StoreOp.add "intro" 0 5 "segmentation", StoreOp.add "main" 5 9 "annotation",
       StoreOp.updateUnchecked 0 2 5, StoreOp.updateChecked 1 6 9,
       StoreOp.remove 0, StoreOp.add "drop" 1 3 "segmentation", StoreOp.clear,
       StoreOp.add "outro" 4 8 "annotation"])) :=
  store_ops_sorted _ _ (by simp [SortedByStart, get_segments])

-- Decimal printing facts for the positional ids of `set_labels`.

theorem ofDigitsRev_decDigitsRevAux (fuel : Nat) :
    ∀ n : Nat, n ≤ fuel → ofDigitsRev (decDigitsRevAux fuel n) = n := by
  induction fuel with
  | zero =>
    intro n hn
    interval_cases n
    rfl
  | succ f ih =>
    intro n hn
    cases n with
    | zero => rfl
    | succ m =>
      have hdiv : (m + 1) / 10 ≤ f := by
        have hlt : (m + 1) / 10 < m + 1 := Nat.div_lt_self (Nat.succ_pos m) (by omega)
        omega
      simp only [decDigitsRevAux, ofDigitsRev, ih _ hdiv]
      omega

theorem decDigitsRevAux_lt_ten (fuel : Nat) :
    ∀ n : Nat, ∀ d ∈ decDigitsRevAux fuel n, d < 10 := by
  induction fuel with
  | zero =>
    intro n d hd
    cases n <;> simp [decDigitsRevAux] at hd
  | succ f ih =>
    intro n d hd
    cases n with
    | zero => simp [decDigitsRevAux] at hd
    | succ m =>
      simp only [decDigitsRevAux, List.mem_cons] at hd
      rcases hd with rfl | hd
      · omega
      · exact ih _ d hd

theorem decDigitChar_toNat (d : Nat) (h : d < 10) : (decDigitChar d).toNat - 48 = d := by
  interval_cases d <;> decide

theorem decode_natDecimal (n : Nat) : decodeDecimal (natDecimal n) = n := by
  by_cases hn : n = 0
  · subst hn
    rfl
  · unfold natDecimal decodeDecimal
    simp only [hn, if_false]
    simp only [List.map_reverse, List.reverse_reverse, List.map_map]
    have hmap : ((decDigitsRev n).map ((fun c => c.toNat - 48) ∘ decDigitChar))
        = (decDigitsRev n).map id := by
      apply List.map_congr_left
      intro d hd
      have hlt : d < 10 := decDigitsRevAux_lt_ten n n d hd
      simp only [Function.comp_apply, id_eq]
      exact decDigitChar_toNat d hlt
    rw [hmap, List.map_id]
    exact ofDigitsRev_decDigitsRevAux n n (le_refl n)

theorem natDecimal_inj (m n : Nat) (h : natDecimal m = natDecimal n) : m = n := by
  have hdec := congrArg decodeDecimal h
  rwa [decode_natDecimal, decode_natDecimal] at hdec

theorem label_prefix_inj (i j : Nat)
    (h : "label_" ++ natDecimal i = "label_" ++ natDecimal j) : i = j := by
  have hd := congrArg String.data h
  simp only [String.data_append] at hd
  have hcancel := List.append_cancel_left hd
  exact natDecimal_inj i j (String.ext hcancel)

theorem foldl_dictInsert_fresh (defs : List LabelDefinition) (acc : LabelDict)
    (hfresh : ∀ ld ∈ defs, ∀ p ∈ acc, p.1 ≠ ld.id)
    (hnodup : (defs.map LabelDefinition.id).Nodup) :
    defs.foldl (fun d ld => dictInsert d ld.id ld) acc
      = acc ++ defs.map (fun ld => (ld.id, ld)) := by
  induction defs generalizing acc with
  | nil => simp
  | cons ld rest ih =>
    have hnot : ¬ acc.any (fun p => p.1 = ld.id) = true := by
      intro hx
      obtain ⟨p, hp, hpe⟩ := List.any_eq_true.mp hx
      exact hfresh ld (by simp) p hp (of_decide_eq_true hpe)
    simp only [List.foldl_cons]
    have hstep : dictInsert acc ld.id ld = acc ++ [(ld.id, ld)] := by
      simp [dictInsert, hnot]
    rw [hstep]
    simp only [List.map_cons, List.nodup_cons] at hnodup
    rw [ih (acc ++ [(ld.id, ld)]) ?_ hnodup.2]
    · simp
    · intro ld2 h2 p hp
      rcases List.mem_append.mp hp with hp | hp
      · exact hfresh ld2 (by simp [h2]) p hp
      · simp only [List.mem_singleton] at hp
        subst hp
        intro heq
        have heq' : ld.id = ld2.id := heq
        exact hnodup.1 (heq' ▸ List.mem_map_of_mem LabelDefinition.id h2)

theorem editor_definitions_ids (labels : List EditorLabel) :
    (editor_definitions labels).map LabelDefinition.id
      = (List.range labels.length).map (fun i => "label_" ++ natDecimal i) := by
  unfold editor_definitions
  rw [List.map_map]
  have h1 : (LabelDefinition.id ∘ fun p : Nat × EditorLabel =>
      LabelDefinition.mk ("label_" ++ natDecimal p.1) p.2.name p.2.color
        (p.2.description?.getD ""))
      = (fun i => "label_" ++ natDecimal i) ∘ Prod.fst := rfl
  rw [h1, ← List.map_map, List.enum_map_fst]

theorem editor_definitions_names (labels : List EditorLabel) :
    (editor_definitions labels).map LabelDefinition.name
      = labels.map EditorLabel.name := by
  unfold editor_definitions
  rw [List.map_map]
  have h1 : (LabelDefinition.name ∘ fun p : Nat × EditorLabel =>
      LabelDefinition.mk ("label_" ++ natDecimal p.1) p.2.name p.2.color
        (p.2.description?.getD ""))
      = EditorLabel.name ∘ Prod.snd := rfl
  rw [h1, ← List.map_map, List.enum_map_snd]

theorem editor_definitions_ids_nodup (labels : List EditorLabel) :
    ((editor_definitions labels).map LabelDefinition.id).Nodup := by
  rw [editor_definitions_ids]
  exact List.Nodup.map (fun a b hab => label_prefix_inj a b hab) (List.nodup_range _)

/-- C10: `set_labels` discards all existing definition ids and assigns fresh
positional ids: for every list L of n editor label dictionaries, the registry
afterwards holds exactly n definitions whose ids are "label_0" through
"label_{n-1}" in list order (with the given names in order), and lookup of
any id not of that positional form yields nothing — existing segments with
other label ids dangle. -/
theorem set_labels_positional_ids (labels : List EditorLabel) :
    (set_labels labels).length = labels.length ∧
    (set_labels labels).map Prod.fst
      = (List.range labels.length).map (fun i => "label_" ++ natDecimal i) ∧
    (set_labels labels).map (fun p => p.2.name) = labels.map EditorLabel.name ∧
    (∀ lid : String,
      lid ∉ (List.range labels.length).map (fun i => "label_" ++ natDecimal i) →
      dictGet (set_labels labels) lid = none) := by
  have hfold : set_labels labels
      = (editor_definitions labels).map (fun ld => (ld.id, ld)) := by
    unfold set_labels
    rw [foldl_dictInsert_fresh _ [] (by simp) (editor_definitions_ids_nodup labels)]
    simp
  have hids : (set_labels labels).map Prod.fst
      = (List.range labels.length).map (fun i => "label_" ++ natDecimal i) := by
    rw [hfold, List.map_map]
    have h1 : (Prod.fst ∘ fun ld : LabelDefinition => (ld.id, ld))
        = LabelDefinition.id := rfl
    rw [h1, editor_definitions_ids]
  refine ⟨?_, hids, ?_, ?_⟩
  · rw [hfold]
    simp [editor_definitions]
  · rw [hfold, List.map_map]
    have h1 : ((fun p : String × LabelDefinition => p.2.name) ∘ fun ld => (ld.id, ld))
        = LabelDefinition.name := rfl
    rw [h1, editor_definitions_names]
  · intro lid hnot
    have hfind : (set_labels labels).find? (fun p => p.1 = lid) = none := by
      rw [List.find?_eq_none]
      intro p hp
      simp only [decide_eq_true_eq]
      intro heq
      apply hnot
      rw [← hids, ← heq]
      exact List.mem_map_of_mem Prod.fst hp
    simp [dictGet, hfind]

/-- C10 witness: after replacing the definitions with a two-element list, the
pre-existing id "intro" is a dangling reference. -/
theorem set_labels_positional_ids_witness :
    dictGet (set_labels [EditorLabel.mk "A" "#111111" none,
      EditorLabel.mk "B" "#222222" none]) "intro" = none :=
  (set_labels_positional_ids _).2.2.2 "intro" (by decide)

end Museg
